import Mathlib

/-!
# Verification of the lispish interpreter (github.com/Warashi/lispish)

Shallow embedding of the repository's Go source:

* `parser.Expr` and its variants (parser/parser.go) as the inductive `Expr`,
  together with the evaluator-side variants `*Closure` and `*Builtin`
  (evaluator, src/unnamed/part_004), which in Go satisfy the same `Expr`
  interface.
* the environment chain (`Env` with `vars` map and `outer` pointer) as a
  store of frames indexed by position, so that the pointer graph (closures
  capturing the environment that holds them) is representable.
* the evaluator `Eval` / `EvalAll` and the builtins `builtinAdd` /
  `builtinMul`, with Go `int64` overflow modelled by explicit wrapping
  (`wrap64`) and Go `float64` modelled exactly by `Rat` (the arithmetic the
  claims mention is exact in `float64` at the widths used).
* the recursive-descent parser (parser/parser.go) over token lists, and the
  two lexers present in the source: the hand-rolled byte lexer
  (lexer/lexer.go, namespace `hlex`) and the `text/scanner`-based lexer used
  by the parser (src/unnamed/part_001, namespace `slex`).

Recursion in the Go code is general (it can diverge on cyclic data only via
the host stack); every recursive function here therefore takes explicit fuel
and returns a distinguished timeout value when it runs out.  Fuel is an
artifact of the embedding: theorems either quantify over it or evaluate at a
concrete, sufficient amount.
-/

/-- `parser.Expr` (parser/parser.go) together with the evaluator's two
callable variants (`*Closure`, `*Builtin` from the evaluator file), which in
Go are `any` values satisfying the same interface.  `Integer` is Go `int64`
(carried as unbounded `Int`; the operations that can overflow wrap
explicitly), `Float` is Go `float64` (modelled exactly by `Rat`).  A closure
carries its parameter names, body, and the index of its captured environment
frame in the store. -/
inductive Expr where
  | symbol  : String → Expr
  | integer : Int → Expr
  | float   : Rat → Expr
  | str     : String → Expr
  | list    : List Expr → Expr
  | comment : String → Expr
  | closure : List String → Expr → Nat → Expr
  | builtinAddFn : Expr
  | builtinMulFn : Expr
deriving Repr

/-- One environment frame: the `vars` map (as an association list, first
binding of a key wins, mirroring Go map lookup) and the `outer` pointer
(index of the parent frame in the store, `none` for the root). -/
structure Frame where
  vars  : List (String × Expr)
  outer : Option Nat
deriving Repr

/-- The heap of environment frames.  A Go `*Env` is an index into it. -/
abbrev Store := List Frame

/-- Lookup in one frame's `vars` map. -/
def lookupVar : List (String × Expr) → String → Option Expr
  | [], _ => none
  | (k, v) :: rest, s => if k = s then some v else lookupVar rest s

/-- Go map insert/overwrite `env.vars[sym] = val`: replace the binding if the
key is present, otherwise add it. -/
def setVar : List (String × Expr) → String → Expr → List (String × Expr)
  | [], s, v => [(s, v)]
  | (k, w) :: rest, s, v =>
      if k = s then (k, v) :: rest else (k, w) :: setVar rest s v

/-- The chain walk of `Env.Get` (evaluator): search the frame, then follow
`outer`.  The fuel bounds the number of hops (Go would diverge on a cyclic
`outer` chain; every store the evaluator builds has parents at strictly
smaller indices, so `st.length` hops always suffice — see `envGet`). -/
def envGetF : Nat → Store → Nat → String → Option Expr
  | 0, _, _, _ => none
  | fuel + 1, st, id, sym =>
    match st.get? id with
    | none => none
    | some f =>
        match lookupVar f.vars sym with
        | some v => some v
        | none =>
            match f.outer with
            | none => none
            | some oid => envGetF fuel st oid sym

/-- `Env.Get` (evaluator): lookup through the environment chain, innermost
frame first. -/
def envGet (st : Store) (id : Nat) (sym : String) : Option Expr :=
  envGetF st.length st id sym

/-- `Env.Set` (evaluator): mutate frame `id` in place. -/
def envSet (st : Store) (id : Nat) (sym : String) (v : Expr) : Store :=
  match st.get? id with
  | none => st
  | some f => st.set id { f with vars := setVar f.vars sym v }

/-- `NewEnv(outer)`: allocate a fresh empty frame whose parent is `outer`;
returns the extended store and the new frame's index. -/
def newEnv (st : Store) (outer : Option Nat) : Store × Nat :=
  (st ++ [{ vars := [], outer := outer }], st.length)

/-- The structured content of every `fmt.Errorf` the evaluator can produce
(each constructor carries the data interpolated into the Go message). -/
inductive EvalErr where
  | undefinedSymbol (name : String)
  | cannotEvalEmptyList
  | quoteWrongArgs
  | defineTooFew
  | defineInvalidFunctionDefinition
  | defineFunctionNameNotSymbol
  | defineParamsNotSymbols
  | defineFirstArgNotSymbol
  | lambdaTooFew
  | lambdaParamsNotList
  | lambdaParamsNotSymbols
  | arity (expected actual : Nat)
  | notAFunction (op : Expr)
  | addInvalidArgument (arg : Expr)
  | mulInvalidArgument (arg : Expr)
  | cannotEvaluate (e : Expr)
deriving Repr

/-- Go `int64` two's-complement wrap-around into `[-2^63, 2^63)`. -/
def wrap64 (x : Int) : Int := (x + 2 ^ 63) % 2 ^ 64 - 2 ^ 63

/-- `builtinMul` (evaluator): fold every operand into an `int64` product and
a `float64` product, then return the float product as a Float if any operand
was a Float, else the int product as an Integer. -/
def builtinMul (args : List Expr) : Except EvalErr Expr :=
  if args.length = 0 then .ok (.integer 1)
  else mulLoop args false 1 1
where
  mulLoop : List Expr → Bool → Int → Rat → Except EvalErr Expr
    | [], isFloat, productInt, productFloat =>
        if isFloat then .ok (.float productFloat) else .ok (.integer productInt)
    | arg :: rest, isFloat, productInt, productFloat =>
        match arg with
        | .integer v => mulLoop rest isFloat (wrap64 (productInt * v)) (productFloat * v)
        | .float v => mulLoop rest true productInt (productFloat * v)
        | _ => .error (.mulInvalidArgument arg)

/-- `builtinAdd` (evaluator): same shape as `builtinMul` with sum
accumulators seeded at 0. -/
def builtinAdd (args : List Expr) : Except EvalErr Expr :=
  if args.length = 0 then .ok (.integer 0)
  else addLoop args false 0 0
where
  addLoop : List Expr → Bool → Int → Rat → Except EvalErr Expr
    | [], isFloat, sumInt, sumFloat =>
        if isFloat then .ok (.float sumFloat) else .ok (.integer sumInt)
    | arg :: rest, isFloat, sumInt, sumFloat =>
        match arg with
        | .integer v => addLoop rest isFloat (wrap64 (sumInt + v)) (sumFloat + v)
        | .float v => addLoop rest true sumInt (sumFloat + v)
        | _ => .error (.addInvalidArgument arg)

/-- Dispatch a `*Builtin`'s native function.  `NewGlobalEnv` registers
exactly `builtinAdd` and `builtinMul`. -/
def applyBuiltin : Expr → List Expr → Except EvalErr Expr
  | .builtinAddFn, args => builtinAdd args
  | .builtinMulFn, args => builtinMul args
  | op, _ => .error (.notAFunction op)

/-- Result of one evaluator call: the Go `(parser.Expr, error)` pair, with
the (mutated) store made explicit.  An error also carries the store because
Go mutates environments in place, so bindings made before the failure stay
visible to the caller.  `timeout` marks fuel exhaustion (embedding artifact
only). -/
inductive Res where
  | ok (st : Store) (v : Expr)
  | err (st : Store) (e : EvalErr)
  | timeout
deriving Repr

/-- Result of evaluating an argument list left-to-right. -/
inductive ArgsRes where
  | ok (st : Store) (vs : List Expr)
  | err (st : Store) (e : EvalErr)
  | timeout
deriving Repr

/-- `define`/`lambda` parameter-list check: every element must be a Symbol. -/
def symbolsOf : List Expr → Option (List String)
  | [] => some []
  | .symbol s :: rest => (symbolsOf rest).map (s :: ·)
  | _ => none

/-- The `for i, param := range fn.params { newEnv.Set(param, args[i]) }`
loop (argument count already checked equal). -/
def bindParams (st : Store) (id : Nat) : List String → List Expr → Store
  | p :: ps, a :: as => bindParams (envSet st id p a) id ps as
  | _, _ => st

/-- Entry points of the evaluator.  Go's `Eval` contains its argument loop
and its application switch inline; to keep the embedding one structurally
recursive function (so that concrete runs reduce definitionally) the three
entry points are the constructors of `ECall`, and `eval`, `evalArgs`,
`applyOp` below are thin wrappers. -/
inductive ECall where
  | one (envId : Nat) (e : Expr)
  | args (envId : Nat) (es : List Expr)
  | apply (callerEnv : Nat) (op : Expr) (args : List Expr)

/-- Output of `evalC`: a value (`Eval`), a value list (the argument loop),
an error, or fuel exhaustion. -/
inductive EOut where
  | val (st : Store) (v : Expr)
  | vals (st : Store) (vs : List Expr)
  | errOut (st : Store) (e : EvalErr)
  | timeout
deriving Repr

/-- `Eval` (evaluator, src/unnamed/part_004) with its inline argument loop
and application switch.  Each Go case appears in source order under
`.one`: literals, symbol lookup, list (special-form dispatch on a literal
head symbol, then application with eager left-to-right argument
evaluation), comment, and the catch-all error.  `.args` is the
`for _, arg := range exp[1:]` loop; `.apply` the `switch fn := op.(type)`
at the end of the list case (whose scope has the caller's `env`, unused by
the closure branch — scoping is lexical). -/
def evalC : Nat → Store → ECall → EOut
  | 0, _, _ => .timeout
  | fuel + 1, st, .one envId expr =>
    (match expr with
    | .integer _ | .float _ | .str _ => .val st expr
    | .symbol s =>
        match envGet st envId s with
        | some v => .val st v
        | none => .errOut st (.undefinedSymbol s)
    | .list es =>
        match es with
        | [] => .errOut st .cannotEvalEmptyList
        | head :: opnds =>
            match head with
            | .symbol "quote" =>
                match opnds with
                | [d] => .val st d
                | _ => .errOut st .quoteWrongArgs
            | .symbol "define" =>
                match opnds with
                | nameOrSig :: second :: restBody =>
                    match nameOrSig with
                    | .list sig =>
                        match sig with
                        | [] => .errOut st .defineInvalidFunctionDefinition
                        | fnHead :: paramExprs =>
                            match fnHead with
                            | .symbol funName =>
                                match symbolsOf paramExprs with
                                | some params =>
                                    let body :=
                                      if restBody.isEmpty then second
                                      else .list (second :: restBody)
                                    .val (envSet st envId funName (.closure params body envId))
                                      (.symbol funName)
                                | none => .errOut st .defineParamsNotSymbols
                            | _ => .errOut st .defineFunctionNameNotSymbol
                    | .symbol varName =>
                        match evalC fuel st (.one envId second) with
                        | .val st' v => .val (envSet st' envId varName v) (.symbol varName)
                        | .errOut st' e => .errOut st' e
                        | _ => .timeout
                    | _ => .errOut st .defineFirstArgNotSymbol
                | _ => .errOut st .defineTooFew
            | .symbol "lambda" =>
                match opnds with
                | paramSpec :: bodyFirst :: bodyRest =>
                    match paramSpec with
                    | .list paramExprs =>
                        match symbolsOf paramExprs with
                        | some params =>
                            let body :=
                              if bodyRest.isEmpty then bodyFirst
                              else .list (bodyFirst :: bodyRest)
                            .val st (.closure params body envId)
                        | none => .errOut st .lambdaParamsNotSymbols
                    | _ => .errOut st .lambdaParamsNotList
                | _ => .errOut st .lambdaTooFew
            | _ =>
                match evalC fuel st (.one envId head) with
                | .val st1 op =>
                    match evalC fuel st1 (.args envId opnds) with
                    | .vals st2 args => evalC fuel st2 (.apply envId op args)
                    | .errOut st2 e => .errOut st2 e
                    | _ => .timeout
                | .errOut st1 e => .errOut st1 e
                | _ => .timeout
    | .comment _ => .val st expr
    | _ => .errOut st (.cannotEvaluate expr))
  | _ + 1, st, .args _ [] => .vals st []
  | fuel + 1, st, .args envId (a :: rest) =>
      (match evalC fuel st (.one envId a) with
      | .val st' v =>
          match evalC fuel st' (.args envId rest) with
          | .vals st'' vs => .vals st'' (v :: vs)
          | .errOut st'' e => .errOut st'' e
          | _ => .timeout
      | .errOut st' e => .errOut st' e
      | _ => .timeout)
  | fuel + 1, st, .apply _callerEnv op args =>
      (match op with
      | .builtinAddFn | .builtinMulFn =>
          match applyBuiltin op args with
          | .ok v => .val st v
          | .error e => .errOut st e
      | .closure params body cenv =>
          if args.length ≠ params.length then
            .errOut st (.arity params.length args.length)
          else
            let alloc := newEnv st (some cenv)
            evalC fuel (bindParams alloc.1 alloc.2 params args) (.one alloc.2 body)
      | _ => .errOut st (.notAFunction op))

/-- `Eval` proper: evaluate one expression. -/
def eval (fuel : Nat) (st : Store) (envId : Nat) (e : Expr) : Res :=
  match evalC fuel st (.one envId e) with
  | .val st' v => .ok st' v
  | .errOut st' er => .err st' er
  | _ => .timeout

/-- The argument loop of `Eval`. -/
def evalArgs (fuel : Nat) (st : Store) (envId : Nat) (es : List Expr) : ArgsRes :=
  match evalC fuel st (.args envId es) with
  | .vals st' vs => .ok st' vs
  | .errOut st' er => .err st' er
  | _ => .timeout

/-- The application switch of `Eval`. -/
def applyOp (fuel : Nat) (st : Store) (callerEnv : Nat) (op : Expr) (args : List Expr) : Res :=
  match evalC fuel st (.apply callerEnv op args) with
  | .val st' v => .ok st' v
  | .errOut st' er => .err st' er
  | _ => .timeout

/-- Result of `EvalAll`: Go returns the zero value `nil` when the input list
is empty, modelled as `none`. -/
inductive SeqRes where
  | ok (st : Store) (v : Option Expr)
  | err (st : Store) (e : EvalErr)
  | timeout
deriving Repr

/-- The loop body of `EvalAll`, carrying the last result so far. -/
def evalAllAux (fuel : Nat) (envId : Nat) : Store → Option Expr → List Expr → SeqRes
  | st, result, [] => .ok st result
  | st, _, e :: rest =>
      match eval fuel st envId e with
      | .ok st' v => evalAllAux fuel envId st' (some v) rest
      | .err st' er => .err st' er
      | .timeout => .timeout

/-- `EvalAll` (evaluator): evaluate the expressions in order in the same
environment, returning the last value, stopping at the first error. -/
def evalAll (fuel : Nat) (st : Store) (envId : Nat) (es : List Expr) : SeqRes :=
  evalAllAux fuel envId st none es

/-- `NewGlobalEnv`: one root frame holding the `+` and `*` builtins. -/
def globalStore : Store :=
  [{ vars := [("+", .builtinAddFn), ("*", .builtinMulFn)], outer := none }]

/-- Value projection of a `SeqRes` (ignores the final store). -/
def SeqRes.value : SeqRes → Option Expr
  | .ok _ v => v
  | _ => none

/-- Error projection of a `SeqRes`. -/
def SeqRes.errOf : SeqRes → Option EvalErr
  | .err _ e => some e
  | _ => none

/-! ## Tokens of the scanner-based lexer (src/unnamed/part_001, used by parser.go) -/

/-- `lexer.Token` of the `text/scanner`-based lexer consumed by the parser
(kinds `TokenLParen` … `TokenComment`).  `TokenEOF` is represented by the end
of the token list (the lexer yields it idempotently at end of input). -/
inductive PTok where
  | lparen | rparen | quote
  | ident (text : String)
  | int (text : String)
  | float (text : String)
  | str (text : String)
  | comment (text : String)
deriving Repr, DecidableEq

/-- The errors `ParseExpr`/`parseList`/`ParseAll` (parser/parser.go) can
return; `eofSentinel` is the `io.EOF` sentinel, `fuelOut` the embedding's
fuel-exhaustion artifact. -/
inductive PErr where
  | eofSentinel
  | invalidIntLit (s : String)
  | invalidFloatLit (s : String)
  | unexpectedEOFInList
  | unexpectedRParen
  | fuelOut
deriving Repr, DecidableEq

/-- Decimal digit string to value. -/
def digitsToNat? : List Char → Option Nat
  | [] => none
  | cs => go cs 0
where
  go : List Char → Nat → Option Nat
    | [], acc => some acc
    | c :: rest, acc =>
        if c.isDigit then go rest (acc * 10 + (c.toNat - '0'.toNat)) else none

/-- Modelled from Go `strconv.ParseInt(s, 10, 64)` restricted to the texts
the scanner's Int tokens carry (unsigned decimal digit strings): the value
if it fits in `int64`, otherwise `none` (range error). -/
def parseInt64 (s : String) : Option Int :=
  match digitsToNat? s.data with
  | some n => if n ≤ 2 ^ 63 - 1 then some (n : Int) else none
  | none => none

/-- Modelled from Go `strconv.ParseFloat(s, 64)` restricted to the decimal
forms the scanner's Float tokens carry (`digits.digits` or `.digits`),
evaluated exactly in `Rat`. -/
def parseFloat64 (s : String) : Option Rat :=
  match s.data.splitOn '.' with
  | [intPart, fracPart] =>
      if (intPart.all Char.isDigit && fracPart.all Char.isDigit)
          && !(intPart.isEmpty && fracPart.isEmpty) then
        match digitsToNat? intPart, digitsToNat? fracPart with
        | some i, some f => some ((i : Rat) + (f : Rat) / ((10 : Rat) ^ fracPart.length))
        | some i, none => some (i : Rat)
        | none, some f => some ((f : Rat) / ((10 : Rat) ^ fracPart.length))
        | none, none => none
      else none
  | [intPart] =>
      if intPart.all Char.isDigit && !intPart.isEmpty then
        (digitsToNat? intPart).map (fun n => (n : Rat))
      else none
  | _ => none

/-- Entry points of the recursive-descent parser.  `ParseExpr` and
`parseList` are mutually recursive in the Go source; they are the two
constructors of `PCall` so that the embedding is a single structurally
recursive function (and concrete runs reduce definitionally), with
`ParseExpr`/`parseList`/`parseQuote` as thin wrappers. -/
inductive PCall where
  | expr (ts : List PTok)
  | lst (ts : List PTok) (acc : List Expr)

/-- `ParseExpr` and `parseList` (parser/parser.go).  Under `.expr`: one
expression from the token stream — the leading comment skip is
`Parser.nextToken`'s loop over `TokenComment`, an empty stream is
`TokenEOF` and yields the `io.EOF` sentinel, and the Quote case is
`parseQuote`: parse exactly one following expression and wrap it as
`(quote <expr>)`.  Under `.lst`: the `'('` has been consumed; parse
sub-expressions until the matching `')'`, erroring if end of input comes
first (`acc` holds the elements read so far). -/
def parseC : Nat → PCall → Except PErr (Expr × List PTok)
  | 0, _ => .error .fuelOut
  | fuel + 1, .expr ts =>
      (match ts with
      | .comment _ :: rest => parseC fuel (.expr rest)
      | [] => .error .eofSentinel
      | .int s :: rest =>
          match parseInt64 s with
          | some n => .ok (.integer n, rest)
          | none => .error (.invalidIntLit s)
      | .float s :: rest =>
          match parseFloat64 s with
          | some q => .ok (.float q, rest)
          | none => .error (.invalidFloatLit s)
      | .str s :: rest => .ok (.str s, rest)
      | .ident s :: rest => .ok (.symbol s, rest)
      | .lparen :: rest => parseC fuel (.lst rest [])
      | .quote :: rest =>
          match parseC fuel (.expr rest) with
          | .ok (e, rest') => .ok (.list [.symbol "quote", e], rest')
          | .error er => .error er
      | .rparen :: _ => .error .unexpectedRParen)
  | fuel + 1, .lst ts acc =>
      (match ts with
      | .comment _ :: rest => parseC fuel (.lst rest acc)
      | [] => .error .unexpectedEOFInList
      | .rparen :: rest => .ok (.list acc, rest)
      | t :: rest =>
          match parseC fuel (.expr (t :: rest)) with
          | .ok (e, rest') => parseC fuel (.lst rest' (acc ++ [e]))
          | .error er => .error er)

/-- `ParseExpr` proper. -/
def ParseExpr (fuel : Nat) (ts : List PTok) : Except PErr (Expr × List PTok) :=
  parseC fuel (.expr ts)

/-- `parseList` proper. -/
def parseList (fuel : Nat) (ts : List PTok) (acc : List Expr) :
    Except PErr (Expr × List PTok) :=
  parseC fuel (.lst ts acc)

/-- `parseQuote` proper (the Quote token has been consumed). -/
def parseQuote (fuel : Nat) (ts : List PTok) : Except PErr (Expr × List PTok) :=
  match ParseExpr fuel ts with
  | .ok (e, rest) => .ok (.list [.symbol "quote", e], rest)
  | .error er => .error er

/-- `ParseAll` (parser/parser.go): expressions until `TokenEOF`; the
`io.EOF` branch (kept for fidelity) is unreachable because the loop guard
already stops at end of input. -/
def ParseAll : Nat → List PTok → Except PErr (List Expr)
  | 0, _ => .error .fuelOut
  | fuel + 1, ts =>
      match ts with
      | .comment _ :: rest => ParseAll fuel rest
      | [] => .ok []
      | t :: rest =>
          match ParseExpr fuel (t :: rest) with
          | .ok (e, rest') => (ParseAll fuel rest').map (e :: ·)
          | .error .eofSentinel => .ok []
          | .error er => .error er

/-! ## The scanner-based lexer (src/unnamed/part_001, `NewLexer`/`NextToken`)

The lexer wraps Go's `text/scanner` with `Mode = ScanIdents | ScanStrings |
ScanInts | ScanFloats`, `Whitespace = GoWhitespace &^ (1 << '\n')`, and a
custom `IsIdentRune`.  `slex.scan` models the configured `Scanner.Scan` on
the subset reachable here, restricted to ASCII letters/digits for
`unicode.IsLetter`/`IsDigit` and to decimal numeric literals (the scanner's
hex/octal/binary, underscore and exponent forms are not modelled; no theorem
below depends on them). -/

namespace slex

/-- The raw scanner-level token: a classified token or a single rune. -/
inductive STok where
  | eof
  | ident (text : String)
  | intTok (text : String)
  | floatTok (text : String)
  | strTok (text : String)
  | chTok (c : Char)
deriving Repr, DecidableEq

/-- The `IsIdentRune` override installed by `NewLexer`: `#` anywhere, the
Scheme symbol punctuation anywhere, digits from the second rune on, letters
anywhere. -/
def isIdentRune (c : Char) (i : Nat) : Bool :=
  c = '#' ||
  (c = '!' || c = '$' || c = '%' || c = '&' ||
   c = '*' || c = '+' || c = '-' || c = '/' ||
   c = ':' || c = '<' || c = '=' || c = '>' ||
   c = '?' || c = '^' || c = '_' || c = '~') ||
  (decide (0 < i) && c.isDigit) ||
  c.isAlpha

/-- `Scanner.scanIdentifier`: consume runes while `IsIdentRune` accepts them
at their position. -/
def scanIdentAux : List Char → Nat → List Char × List Char
  | [], _ => ([], [])
  | c :: r, i =>
      if isIdentRune c i then
        let p := scanIdentAux r (i + 1)
        (c :: p.1, p.2)
      else ([], c :: r)

/-- `Scanner.scanNumber` entered at a decimal digit: digits, then an
optional fraction; Int token if no fraction, Float token otherwise. -/
def scanNumberFromDigit (cs : List Char) : STok × List Char :=
  let ds := cs.takeWhile Char.isDigit
  let r := cs.drop ds.length
  match r with
  | '.' :: r2 =>
      let fs := r2.takeWhile Char.isDigit
      (.floatTok (String.mk (ds ++ '.' :: fs)), r2.drop fs.length)
  | _ => (.intTok (String.mk ds), r)

/-- `Scanner.scanString` after the opening quote: raw consumed text
(escapes kept verbatim), stopping at the closing quote, a newline, or end of
input (the latter two leave the literal unterminated; the scanner flags an
error but still yields the String token with the consumed text). -/
def scanStringAux : List Char → List Char × List Char
  | [] => ([], [])
  | '"' :: r => (['"'], r)
  | '\\' :: c :: r =>
      let p := scanStringAux r
      ('\\' :: c :: p.1, p.2)
  | '\n' :: r => ([], '\n' :: r)
  | c :: r =>
      let p := scanStringAux r
      (c :: p.1, p.2)

/-- The configured `Scanner.Scan`: skip whitespace (`' '`, `'\t'`, `'\r'`;
newline is excluded from the whitespace mask), then classify: identifier,
number, string, float-after-dot, or a bare rune. -/
def scan (cs : List Char) : STok × List Char :=
  let cs1 := cs.dropWhile (fun c => c = ' ' || c = '\t' || c = '\r')
  match cs1 with
  | [] => (.eof, [])
  | c :: r =>
      if isIdentRune c 0 then
        let p := scanIdentAux (c :: r) 0
        (.ident (String.mk p.1), p.2)
      else if c.isDigit then scanNumberFromDigit (c :: r)
      else if c = '"' then
        let p := scanStringAux r
        (.strTok (String.mk ('"' :: p.1)), p.2)
      else if c = '.' then
        match r with
        | d :: _ =>
            if d.isDigit then
              let fs := r.takeWhile Char.isDigit
              (.floatTok (String.mk ('.' :: fs)), r.drop fs.length)
            else (.chTok '.', r)
        | [] => (.chTok '.', r)
      else (.chTok c, r)

/-- `strconv.Unquote` on the escapes the model covers (`\n`, `\t`, `\\`,
`\"`); any other escape or shape makes the whole literal invalid. -/
def resolveEscapes : List Char → Option (List Char)
  | [] => some []
  | '\\' :: c :: r =>
      (match c with
       | 'n' => (resolveEscapes r).map ('\n' :: ·)
       | 't' => (resolveEscapes r).map ('\t' :: ·)
       | '\\' => (resolveEscapes r).map ('\\' :: ·)
       | '"' => (resolveEscapes r).map ('"' :: ·)
       | _ => none)
  | '\\' :: [] => none
  | '"' :: _ => none
  | c :: r => (resolveEscapes r).map (c :: ·)

/-- The lexer's `strconv.Unquote(text)` call with its fallback: on any
unquoting error the raw text is kept unchanged. -/
def unquote (raw : String) : String :=
  match raw.data with
  | '"' :: rest =>
      match rest.getLast? with
      | some '"' =>
          match resolveEscapes rest.dropLast with
          | some s => String.mk s
          | none => raw
      | _ => raw
  | _ => raw

/-- The `text == ";"` comment branch of `NextToken`: with whitespace
skipping disabled it reassembles the raw text through end of line; the
newline itself is consumed and not part of the comment.  (Modelling
assumption: the comment contains no `'"'`, which would make the scanner
consume across lines.) -/
def commentLine (cs : List Char) : List Char × List Char :=
  (cs.takeWhile (fun c => c ≠ '\n'), (cs.dropWhile (fun c => c ≠ '\n')).tail)

/-- `Lexer.NextToken` (scanner variant): `some (none, _)` is `TokenEOF`,
`some (some t, _)` a produced token, `none` fuel exhaustion (the loop over
whitespace runes needs fuel). -/
def NextToken : Nat → List Char → Option (Option PTok × List Char)
  | 0, _ => none
  | fuel + 1, cs =>
      match scan cs with
      | (.eof, r) => some (none, r)
      | (.chTok ';', r) =>
          let p := commentLine r
          some (some (.comment (";" ++ String.mk p.1)), p.2)
      | (.chTok '(', r) => some (some .lparen, r)
      | (.chTok ')', r) => some (some .rparen, r)
      | (.chTok '\'', r) => some (some .quote, r)
      | (.strTok raw, r) => some (some (.str (unquote raw)), r)
      | (.intTok s, r) => some (some (.int s), r)
      | (.floatTok s, r) => some (some (.float s), r)
      | (.ident s, r) => some (some (.ident s), r)
      | (.chTok c, r) =>
          if c = '\n' || c = '\r' || c = '\t' || c = ' ' then NextToken fuel r
          else some (some (.ident (String.singleton c)), r)

/-- Run `NextToken` to end of input, collecting the token list. -/
def tokenize : Nat → List Char → Option (List PTok)
  | 0, _ => none
  | fuel + 1, cs =>
      match NextToken (fuel + 1) cs with
      | none => none
      | some (none, _) => some []
      | some (some t, r) => (tokenize fuel r).map (t :: ·)

end slex

/-! ## The hand-rolled byte lexer (src/lexer/lexer.go)

A byte-level lexer over the input string; `l.ch` is the head of the
remaining character list (`0`, i.e. end, when the list is empty).  Its
`NextToken` expands `'X` itself by queueing `( QUOTE … )` tokens in
`pending`. -/

namespace hlex

/-- The `TokenType` constants of lexer/lexer.go. -/
inductive TT where
  | ILLEGAL | EOF | LPAREN | RPAREN | DOT | QUOTE | NUMBER | STRING | SYMBOL | BOOLEAN
deriving Repr, DecidableEq

/-- `lexer.Token`. -/
structure Tok where
  type : TT
  lit  : String
deriving Repr, DecidableEq

/-- `isDigit`. -/
def isDigit (c : Char) : Bool := decide ('0' ≤ c) && decide (c ≤ '9')

/-- `isLetter`. -/
def isLetter (c : Char) : Bool :=
  (decide ('a' ≤ c) && decide (c ≤ 'z')) || (decide ('A' ≤ c) && decide (c ≤ 'Z'))

/-- `isAllowedSymbolChar`. -/
def isAllowedSymbolChar (c : Char) : Bool :=
  c = '!' || c = '$' || c = '%' || c = '&' || c = '*' || c = '+' || c = '-' ||
  c = '.' || c = '/' || c = ':' || c = '<' || c = '=' || c = '>' || c = '?' ||
  c = '@' || c = '^' || c = '_' || c = '~' || c = '#'

/-- `isSymbolChar`. -/
def isSymbolChar (c : Char) : Bool := isLetter c || isDigit c || isAllowedSymbolChar c

/-- `isInitialSymbol`. -/
def isInitialSymbol (c : Char) : Bool := isLetter c || isAllowedSymbolChar c

/-- Whitespace characters skipped by `skipWhitespace`. -/
def isWS (c : Char) : Bool := c = ' ' || c = '\t' || c = '\n' || c = '\r'

/-- Lexer state: the unread input and the `pending` token queue filled by
the quote expansion. -/
structure LexSt where
  rest    : List Char
  pending : List Tok
deriving Repr, DecidableEq

/-- `readNumber`: optional `-`, digits, optionally `.` and more digits;
returns the literal and the remaining input. -/
def readNumber (cs : List Char) : List Char × List Char :=
  let sign : List Char × List Char :=
    match cs with
    | '-' :: r => (['-'], r)
    | _ => ([], cs)
  let ds := sign.2.takeWhile isDigit
  let cs2 := sign.2.drop ds.length
  match cs2 with
  | '.' :: r2 =>
      let fs := r2.takeWhile isDigit
      (sign.1 ++ ds ++ '.' :: fs, r2.drop fs.length)
  | _ => (sign.1 ++ ds, cs2)

/-- `readString`: skip the opening quote, take raw text up to a closing
quote or end of input, skip the closing quote if present.  Note: no error
on an unterminated literal — the partial text is returned. -/
def readString (cs : List Char) : String × List Char :=
  let r := cs.tail
  let sChars := r.takeWhile (fun c => c ≠ '"')
  (String.mk sChars, (r.drop sChars.length).tail)

/-- `readSymbol`. -/
def readSymbol (cs : List Char) : String × List Char :=
  (String.mk (cs.takeWhile isSymbolChar), cs.drop (cs.takeWhile isSymbolChar).length)

/-- Entry points of the hand-rolled lexer's mutually recursive trio
(`NextToken`, `readExpressionTokens`, and the latter's `for depth > 0`
loop); one structurally recursive function so concrete runs reduce
definitionally, with thin wrappers below. -/
inductive HCall where
  | tok (st : LexSt)
  | expr (st : LexSt)
  | lst (depth : Nat) (st : LexSt) (acc : List Tok)

/-- `Lexer.NextToken` (under `.tok`), `readExpressionTokens` (under
`.expr`), and its depth loop (under `.lst`), from lexer/lexer.go.
`NextToken` pops `pending` first; otherwise it skips whitespace and
dispatches on the current character, with the `'` branch queueing the
`( QUOTE <datum tokens> )` expansion (note the Go code appends `(` and
`QUOTE` to `pending` before calling `readExpressionTokens`, which reads
through `NextToken` and therefore drains `pending` first).  A `.tok`
result is a singleton token list; `none` is fuel exhaustion. -/
def lexC : Nat → HCall → Option (List Tok × LexSt)
  | 0, _ => none
  | fuel + 1, .tok st =>
      (match st.pending with
      | t :: ps => some ([t], { st with pending := ps })
      | [] =>
          match st.rest.dropWhile isWS with
          | [] => some ([⟨.EOF, ""⟩], ⟨[], []⟩)
          | c :: r =>
              if c = '\'' then
                match lexC fuel
                    (.expr ⟨r, [⟨.LPAREN, "("⟩, ⟨.QUOTE, "'"⟩]⟩) with
                | some (datum, st') =>
                    match st'.pending ++ datum ++ [⟨.RPAREN, ")"⟩] with
                    | t :: ps => some ([t], { st' with pending := ps })
                    | [] => none
                | none => none
              else if c = '(' then some ([⟨.LPAREN, "("⟩], ⟨r, []⟩)
              else if c = ')' then some ([⟨.RPAREN, ")"⟩], ⟨r, []⟩)
              else if c = '.' then some ([⟨.DOT, "."⟩], ⟨r, []⟩)
              else if c = '"' then
                some ([⟨.STRING, (readString ('"' :: r)).1⟩],
                  ⟨(readString ('"' :: r)).2, []⟩)
              else if c = ';' then
                lexC fuel (.tok { rest := r.dropWhile (fun ch => ch ≠ '\n'), pending := [] })
              else if isDigit c ||
                  (c = '-' && (match r with | d :: _ => isDigit d | [] => false)) then
                some ([⟨.NUMBER, String.mk (readNumber (c :: r)).1⟩],
                  ⟨(readNumber (c :: r)).2, []⟩)
              else if isInitialSymbol c then
                if (readSymbol (c :: r)).1 = "#t" ∨ (readSymbol (c :: r)).1 = "#f" then
                  some ([⟨.BOOLEAN, (readSymbol (c :: r)).1⟩], ⟨(readSymbol (c :: r)).2, []⟩)
                else some ([⟨.SYMBOL, (readSymbol (c :: r)).1⟩], ⟨(readSymbol (c :: r)).2, []⟩)
              else some ([⟨.ILLEGAL, String.singleton c⟩], ⟨r, []⟩))
  | fuel + 1, .expr st =>
      (match lexC fuel (.tok st) with
      | some ([tok], st1) =>
          if tok.type = .LPAREN then lexC fuel (.lst 1 st1 [tok])
          else some ([tok], st1)
      | _ => none)
  | fuel + 1, .lst depth st acc =>
      if depth = 0 then some (acc, st)
      else
        match lexC fuel (.tok st) with
        | some ([tok], st1) =>
            if tok.type = .LPAREN then lexC fuel (.lst (depth + 1) st1 (acc ++ [tok]))
            else if tok.type = .RPAREN then lexC fuel (.lst (depth - 1) st1 (acc ++ [tok]))
            else if tok.type = .EOF then some (acc ++ [tok], st1)
            else lexC fuel (.lst depth st1 (acc ++ [tok]))
        | _ => none

/-- `NextToken` proper. -/
def NextToken (fuel : Nat) (st : LexSt) : Option (Tok × LexSt) :=
  match lexC fuel (.tok st) with
  | some ([t], st') => some (t, st')
  | _ => none

/-- `readExpressionTokens` proper. -/
def readExpressionTokens (fuel : Nat) (st : LexSt) : Option (List Tok × LexSt) :=
  lexC fuel (.expr st)

/-- `New(input)` : initial lexer state. -/
def New (input : String) : LexSt := ⟨input.data, []⟩

end hlex

/-! ## Specification-side definitions for the numeric coercion rule (§4.3)

These follow the spec's wording — two accumulators seeded at the identity,
every operand folded in — and are compared with the source-translated
`builtinAdd`/`builtinMul` by the theorems below. -/

/-- Spec: "if any operand was a Float". -/
def specHasFloat (args : List Expr) : Bool :=
  args.any fun a => match a with | .float _ => true | _ => false

/-- Spec: "operands must each be Integer or Float". -/
def specAllNumeric (args : List Expr) : Bool :=
  args.all fun a => match a with | .integer _ => true | .float _ => true | _ => false

/-- All operands are Integers (for the all-integer wrap-around claim). -/
def specAllInt (args : List Expr) : Bool :=
  args.all fun a => match a with | .integer _ => true | _ => false

/-- Spec: the integer accumulator, folded left to right from `seed`
(`int64` arithmetic, hence the wrap); Float operands do not touch it. -/
def specIntFold (op : Int → Int → Int) (seed : Int) (args : List Expr) : Int :=
  args.foldl (fun acc a => match a with
    | .integer v => wrap64 (op acc v)
    | _ => acc) seed

/-- Spec: the float accumulator, folded left to right from `seed`; both
Integer and Float operands are folded in. -/
def specFloatFold (op : Rat → Rat → Rat) (seed : Rat) (args : List Expr) : Rat :=
  args.foldl (fun acc a => match a with
    | .integer v => op acc (v : Rat)
    | .float v => op acc v
    | _ => acc) seed

/-- The mathematical (unwrapped) sum of the Integer operands. -/
def sumIntVals : List Expr → Int
  | [] => 0
  | .integer v :: r => v + sumIntVals r
  | _ :: r => sumIntVals r

/-- The mathematical (unwrapped) product of the Integer operands. -/
def prodIntVals : List Expr → Int
  | [] => 1
  | .integer v :: r => v * prodIntVals r
  | _ :: r => prodIntVals r

lemma addLoop_spec (args : List Expr) :
    ∀ (isF : Bool) (si : Int) (sf : Rat), specAllNumeric args = true →
    builtinAdd.addLoop args isF si sf =
      if isF || specHasFloat args then .ok (.float (specFloatFold (· + ·) sf args))
      else .ok (.integer (specIntFold (· + ·) si args)) := by
  induction args with
  | nil =>
      intro isF si sf _
      simp [builtinAdd.addLoop, specHasFloat, specFloatFold, specIntFold]
  | cons a rest ih =>
      intro isF si sf hnum
      match a with
      | .integer v =>
          simp only [specAllNumeric, List.all_cons, Bool.and_eq_true] at hnum
          simp [builtinAdd.addLoop, specHasFloat, specFloatFold, specIntFold,
            ih isF (wrap64 (si + v)) (sf + (v : Rat)) (by simpa [specAllNumeric] using hnum.2),
            specHasFloat]
      | .float v =>
          simp only [specAllNumeric, List.all_cons, Bool.and_eq_true] at hnum
          simp [builtinAdd.addLoop, specHasFloat, specFloatFold, specIntFold,
            ih true si (sf + v) (by simpa [specAllNumeric] using hnum.2)]
      | .symbol s => simp [specAllNumeric] at hnum
      | .str s => simp [specAllNumeric] at hnum
      | .list l => simp [specAllNumeric] at hnum
      | .comment s => simp [specAllNumeric] at hnum
      | .closure p b e => simp [specAllNumeric] at hnum
      | .builtinAddFn => simp [specAllNumeric] at hnum
      | .builtinMulFn => simp [specAllNumeric] at hnum

lemma mulLoop_spec (args : List Expr) :
    ∀ (isF : Bool) (si : Int) (sf : Rat), specAllNumeric args = true →
    builtinMul.mulLoop args isF si sf =
      if isF || specHasFloat args then .ok (.float (specFloatFold (· * ·) sf args))
      else .ok (.integer (specIntFold (· * ·) si args)) := by
  induction args with
  | nil =>
      intro isF si sf _
      simp [builtinMul.mulLoop, specHasFloat, specFloatFold, specIntFold]
  | cons a rest ih =>
      intro isF si sf hnum
      match a with
      | .integer v =>
          simp only [specAllNumeric, List.all_cons, Bool.and_eq_true] at hnum
          simp [builtinMul.mulLoop, specHasFloat, specFloatFold, specIntFold,
            ih isF (wrap64 (si * v)) (sf * (v : Rat)) (by simpa [specAllNumeric] using hnum.2)]
      | .float v =>
          simp only [specAllNumeric, List.all_cons, Bool.and_eq_true] at hnum
          simp [builtinMul.mulLoop, specHasFloat, specFloatFold, specIntFold,
            ih true si (sf * v) (by simpa [specAllNumeric] using hnum.2)]
      | .symbol s => simp [specAllNumeric] at hnum
      | .str s => simp [specAllNumeric] at hnum
      | .list l => simp [specAllNumeric] at hnum
      | .comment s => simp [specAllNumeric] at hnum
      | .closure p b e => simp [specAllNumeric] at hnum
      | .builtinAddFn => simp [specAllNumeric] at hnum
      | .builtinMulFn => simp [specAllNumeric] at hnum

/-- C1: for every call of `+` or `*` on Integer/Float operands, the result
is the Float of the spec's float fold (seeded at the identity) when any
operand is a Float, and otherwise the Integer of the spec's integer fold;
zero operands give the identity (Integer 0 for `+`, Integer 1 for `*`); and
concretely `(+ 1 2 3)` ⇒ Integer 6, `(* 2 3 4)` ⇒ Integer 24,
`(+ 1 2.0)` ⇒ Float 3.0, evaluated end to end in the global environment. -/
theorem arith_builtin_coercion :
    (∀ args : List Expr, specAllNumeric args = true →
      builtinAdd args =
        if specHasFloat args then .ok (.float (specFloatFold (· + ·) 0 args))
        else .ok (.integer (specIntFold (· + ·) 0 args))) ∧
    (∀ args : List Expr, specAllNumeric args = true →
      builtinMul args =
        if specHasFloat args then .ok (.float (specFloatFold (· * ·) 1 args))
        else .ok (.integer (specIntFold (· * ·) 1 args))) ∧
    builtinAdd [] = .ok (.integer 0) ∧
    builtinMul [] = .ok (.integer 1) ∧
    (evalAll 10 globalStore 0
      [.list [.symbol "+", .integer 1, .integer 2, .integer 3]]).value
        = some (.integer 6) ∧
    (evalAll 10 globalStore 0
      [.list [.symbol "*", .integer 2, .integer 3, .integer 4]]).value
        = some (.integer 24) ∧
    (∃ q : Rat, (evalAll 10 globalStore 0
      [.list [.symbol "+", .integer 1, .float 2]]).value
        = some (.float q) ∧ q = 3) := by
  refine ⟨?_, ?_, rfl, rfl, rfl, rfl, _, rfl, by norm_num⟩
  · intro args h
    match args with
    | [] => simp [builtinAdd, specHasFloat, specFloatFold, specIntFold]
    | a :: rest =>
        rw [builtinAdd]
        simp only [List.length_cons, Nat.succ_ne_zero, if_false]
        exact addLoop_spec (a :: rest) false 0 0 h
  · intro args h
    match args with
    | [] => simp [builtinMul, specHasFloat, specFloatFold, specIntFold]
    | a :: rest =>
        rw [builtinMul]
        simp only [List.length_cons, Nat.succ_ne_zero, if_false]
        exact mulLoop_spec (a :: rest) false 1 1 h

/-- Witness for `arith_builtin_coercion`: its hypothesis discharged at the
concrete operand list `[Integer 2, Float 5]`. -/
theorem arith_builtin_coercion_witness :
    specAllNumeric [.integer 2, .float 5] = true ∧
    ∃ q : Rat, builtinAdd [.integer 2, .float 5] = .ok (.float q) ∧ q = 7 :=
  ⟨rfl, _, (arith_builtin_coercion.1 [.integer 2, .float 5] rfl).trans rfl,
    by norm_num [specFloatFold, List.foldl]⟩

/-! ## C10: all-Integer arithmetic is 64-bit two's-complement -/

lemma wrap64_emod (x : Int) : wrap64 x % 2 ^ 64 = x % 2 ^ 64 := by
  have h63 : (2 : Int) ^ 63 = 9223372036854775808 := by norm_num
  have h64 : (2 : Int) ^ 64 = 18446744073709551616 := by norm_num
  unfold wrap64
  rw [h63, h64]
  omega

lemma wrap64_range (x : Int) : -2 ^ 63 ≤ wrap64 x ∧ wrap64 x < 2 ^ 63 := by
  have h63 : (2 : Int) ^ 63 = 9223372036854775808 := by norm_num
  have h64 : (2 : Int) ^ 64 = 18446744073709551616 := by norm_num
  unfold wrap64
  rw [h63, h64]
  omega

lemma addLoop_wrap (args : List Expr) : ∀ (si : Int) (sf : Rat),
    specAllInt args = true → -2 ^ 63 ≤ si → si < 2 ^ 63 →
    ∃ n, builtinAdd.addLoop args false si sf = .ok (.integer n) ∧
      n % 2 ^ 64 = (si + sumIntVals args) % 2 ^ 64 ∧ -2 ^ 63 ≤ n ∧ n < 2 ^ 63 := by
  induction args with
  | nil =>
      intro si sf _ hlb hub
      exact ⟨si, rfl, by simp [sumIntVals], hlb, hub⟩
  | cons a rest ih =>
      intro si sf hint hlb hub
      match a with
      | .integer v =>
          simp only [specAllInt, List.all_cons, Bool.and_eq_true] at hint
          obtain ⟨n, hrun, hmod, hnlb, hnub⟩ :=
            ih (wrap64 (si + v)) (sf + (v : Rat))
              (by simpa [specAllInt] using hint.2)
              (wrap64_range (si + v)).1 (wrap64_range (si + v)).2
          refine ⟨n, hrun, ?_, hnlb, hnub⟩
          calc n % 2 ^ 64
              = (wrap64 (si + v) + sumIntVals rest) % 2 ^ 64 := hmod
            _ = (si + v + sumIntVals rest) % 2 ^ 64 :=
                Int.ModEq.add_right (sumIntVals rest) (wrap64_emod (si + v))
            _ = (si + sumIntVals (Expr.integer v :: rest)) % 2 ^ 64 := by
                simp [sumIntVals]; ring_nf
      | .float v => simp [specAllInt] at hint
      | .symbol s => simp [specAllInt] at hint
      | .str s => simp [specAllInt] at hint
      | .list l => simp [specAllInt] at hint
      | .comment s => simp [specAllInt] at hint
      | .closure p b e => simp [specAllInt] at hint
      | .builtinAddFn => simp [specAllInt] at hint
      | .builtinMulFn => simp [specAllInt] at hint

lemma mulLoop_wrap (args : List Expr) : ∀ (si : Int) (sf : Rat),
    specAllInt args = true → -2 ^ 63 ≤ si → si < 2 ^ 63 →
    ∃ n, builtinMul.mulLoop args false si sf = .ok (.integer n) ∧
      n % 2 ^ 64 = (si * prodIntVals args) % 2 ^ 64 ∧ -2 ^ 63 ≤ n ∧ n < 2 ^ 63 := by
  induction args with
  | nil =>
      intro si sf _ hlb hub
      exact ⟨si, rfl, by simp [prodIntVals], hlb, hub⟩
  | cons a rest ih =>
      intro si sf hint hlb hub
      match a with
      | .integer v =>
          simp only [specAllInt, List.all_cons, Bool.and_eq_true] at hint
          obtain ⟨n, hrun, hmod, hnlb, hnub⟩ :=
            ih (wrap64 (si * v)) (sf * (v : Rat))
              (by simpa [specAllInt] using hint.2)
              (wrap64_range (si * v)).1 (wrap64_range (si * v)).2
          refine ⟨n, hrun, ?_, hnlb, hnub⟩
          calc n % 2 ^ 64
              = (wrap64 (si * v) * prodIntVals rest) % 2 ^ 64 := hmod
            _ = (si * v * prodIntVals rest) % 2 ^ 64 :=
                Int.ModEq.mul_right (prodIntVals rest) (wrap64_emod (si * v))
            _ = (si * prodIntVals (Expr.integer v :: rest)) % 2 ^ 64 := by
                simp [prodIntVals]; ring_nf
      | .float v => simp [specAllInt] at hint
      | .symbol s => simp [specAllInt] at hint
      | .str s => simp [specAllInt] at hint
      | .list l => simp [specAllInt] at hint
      | .comment s => simp [specAllInt] at hint
      | .closure p b e => simp [specAllInt] at hint
      | .builtinAddFn => simp [specAllInt] at hint
      | .builtinMulFn => simp [specAllInt] at hint

/-- C10: on all-Integer operand lists, `+` and `*` always return an Integer
congruent to the mathematical fold modulo `2^64` and lying in
`[-2^63, 2^63)` — two's-complement wrap-around, never an error, never a
Float; concretely `(+ 9223372036854775807 1)` yields
Integer `-9223372036854775808`. -/
theorem arith_int64_wrap :
    (∀ args, specAllInt args = true →
      ∃ n, builtinAdd args = .ok (.integer n) ∧
        n % 2 ^ 64 = sumIntVals args % 2 ^ 64 ∧ -2 ^ 63 ≤ n ∧ n < 2 ^ 63) ∧
    (∀ args, specAllInt args = true →
      ∃ n, builtinMul args = .ok (.integer n) ∧
        n % 2 ^ 64 = prodIntVals args % 2 ^ 64 ∧ -2 ^ 63 ≤ n ∧ n < 2 ^ 63) ∧
    builtinAdd [.integer 9223372036854775807, .integer 1]
      = .ok (.integer (-9223372036854775808)) ∧
    builtinMul [.integer 4611686018427387904, .integer 4]
      = .ok (.integer 0) := by
  refine ⟨?_, ?_, rfl, rfl⟩
  · intro args hint
    match args with
    | [] => exact ⟨0, rfl, rfl, by norm_num, by norm_num⟩
    | a :: rest =>
        rw [builtinAdd]
        simp only [List.length_cons, Nat.succ_ne_zero, if_false]
        simpa using addLoop_wrap (a :: rest) 0 0 hint (by norm_num) (by norm_num)
  · intro args hint
    match args with
    | [] => exact ⟨1, rfl, rfl, by norm_num, by norm_num⟩
    | a :: rest =>
        rw [builtinMul]
        simp only [List.length_cons, Nat.succ_ne_zero, if_false]
        simpa using mulLoop_wrap (a :: rest) 1 1 hint (by norm_num) (by norm_num)

/-- Witness for `arith_int64_wrap`: hypothesis discharged at the
overflowing operand list `[Integer (2^63 - 1), Integer 1]`. -/
theorem arith_int64_wrap_witness :
    specAllInt [.integer 9223372036854775807, .integer 1] = true ∧
    ∃ n, builtinAdd [.integer 9223372036854775807, .integer 1] = .ok (.integer n) ∧
      n % 2 ^ 64 = sumIntVals [.integer 9223372036854775807, .integer 1] % 2 ^ 64 ∧
      -2 ^ 63 ≤ n ∧ n < 2 ^ 63 :=
  ⟨rfl, arith_int64_wrap.1 [.integer 9223372036854775807, .integer 1] rfl⟩

/-! ## C2: closure invocation -/

/-- C2: invoking a Closure with the wrong number of evaluated arguments
fails with an arity error carrying the expected (parameter) and actual
(argument) counts, leaving the store untouched — arguments are never
truncated or padded; with matching counts, a fresh frame is allocated whose
parent is the closure's captured environment `cenv` (the caller's
environment appears nowhere on the right-hand side, which is quantified
over it), each parameter is bound there to the corresponding argument, and
the result is the body evaluated in that frame. -/
theorem closure_invocation (fuel : Nat) (st : Store) (callerEnv : Nat)
    (params : List String) (body : Expr) (cenv : Nat) (args : List Expr) :
    (args.length ≠ params.length →
      applyOp (fuel + 1) st callerEnv (.closure params body cenv) args
        = .err st (.arity params.length args.length)) ∧
    (args.length = params.length →
      applyOp (fuel + 1) st callerEnv (.closure params body cenv) args
        = eval fuel
            (bindParams (st ++ [{ vars := [], outer := some cenv }]) st.length params args)
            st.length body) := by
  constructor
  · intro h
    simp [applyOp, evalC, h]
  · intro h
    simp [applyOp, eval, evalC, h, newEnv]

/-- Witness for `closure_invocation`: both hypotheses discharged against
the identity closure `(lambda (x) x)` captured in the global frame. -/
theorem closure_invocation_witness :
    ([Expr.integer 1, Expr.integer 2].length ≠ ["x"].length ∧
      applyOp 1 globalStore 0 (.closure ["x"] (.symbol "x") 0) [.integer 1, .integer 2]
        = .err globalStore (.arity 1 2)) ∧
    ([Expr.integer 7].length = ["x"].length ∧
      applyOp 2 globalStore 0 (.closure ["x"] (.symbol "x") 0) [.integer 7]
        = .ok [{ vars := [("+", .builtinAddFn), ("*", .builtinMulFn)], outer := none },
               { vars := [("x", .integer 7)], outer := some 0 }]
            (.integer 7)) :=
  ⟨⟨by decide,
    (closure_invocation 0 globalStore 0 ["x"] (.symbol "x") 0
      [.integer 1, .integer 2]).1 (by decide)⟩,
   ⟨rfl,
    ((closure_invocation 1 globalStore 0 ["x"] (.symbol "x") 0
      [.integer 7]).2 rfl).trans rfl⟩⟩

/-! ## C4: eval_sequence -/

lemma evalAllAux_append (fuel envId : Nat) (es1 : List Expr) :
    ∀ (st : Store) (r : Option Expr) (es2 : List Expr),
    evalAllAux fuel envId st r (es1 ++ es2) =
      match evalAllAux fuel envId st r es1 with
      | .ok st1 r1 => evalAllAux fuel envId st1 r1 es2
      | .err st1 e => .err st1 e
      | .timeout => .timeout := by
  induction es1 with
  | nil => intro st r es2; simp [evalAllAux]
  | cons e es1 ih =>
      intro st r es2
      cases h : eval fuel st envId e with
      | ok st' v => simp [evalAllAux, h, ih]
      | err st' er => simp [evalAllAux, h]
      | timeout => simp [evalAllAux, h]

/-- C4: `EvalAll` evaluates the expressions in order in the same
environment: after a successfully evaluated prefix the last expression's
value (from the store the prefix produced, so earlier `define`s are
visible) is the overall result; if an expression fails, that first error is
the overall result and the remaining expressions (`es2`, absent from the
conclusion) are never evaluated.  Concretely `(define x 42) x` evaluates to
Integer 42. -/
theorem eval_sequence :
    (∀ (fuel : Nat) (st : Store) (envId : Nat) (es1 : List Expr) (st1 : Store)
        (r1 : Option Expr) (elast : Expr) (st2 : Store) (v : Expr),
      evalAllAux fuel envId st none es1 = .ok st1 r1 →
      eval fuel st1 envId elast = .ok st2 v →
      evalAll fuel st envId (es1 ++ [elast]) = .ok st2 (some v)) ∧
    (∀ (fuel : Nat) (st : Store) (envId : Nat) (es1 : List Expr) (st1 : Store)
        (r1 : Option Expr) (e : Expr) (es2 : List Expr) (st2 : Store) (er : EvalErr),
      evalAllAux fuel envId st none es1 = .ok st1 r1 →
      eval fuel st1 envId e = .err st2 er →
      evalAll fuel st envId (es1 ++ e :: es2) = .err st2 er) ∧
    evalAll 10 globalStore 0
        [.list [.symbol "define", .symbol "x", .integer 42], .symbol "x"]
      = .ok [{ vars := [("+", .builtinAddFn), ("*", .builtinMulFn), ("x", .integer 42)],
               outer := none }]
          (some (.integer 42)) := by
  refine ⟨?_, ?_, rfl⟩
  · intro fuel st envId es1 st1 r1 elast st2 v h1 h2
    unfold evalAll
    rw [evalAllAux_append, h1]
    simp [evalAllAux, h2]
  · intro fuel st envId es1 st1 r1 e es2 st2 er h1 h2
    unfold evalAll
    rw [evalAllAux_append, h1]
    simp [evalAllAux, h2]

/-- Witness for `eval_sequence`: hypotheses discharged on the program
`(define x 42) x` in the global environment. -/
theorem eval_sequence_witness :
    evalAllAux 10 0 globalStore none
        [.list [.symbol "define", .symbol "x", .integer 42]]
      = .ok [{ vars := [("+", .builtinAddFn), ("*", .builtinMulFn), ("x", .integer 42)],
               outer := none }]
          (some (.symbol "x")) ∧
    evalAll 10 globalStore 0
        ([.list [.symbol "define", .symbol "x", .integer 42]] ++ [.symbol "x"])
      = .ok [{ vars := [("+", .builtinAddFn), ("*", .builtinMulFn), ("x", .integer 42)],
               outer := none }]
          (some (.integer 42)) :=
  ⟨rfl,
   eval_sequence.1 10 globalStore 0
     [.list [.symbol "define", .symbol "x", .integer 42]]
     [{ vars := [("+", .builtinAddFn), ("*", .builtinMulFn), ("x", .integer 42)],
        outer := none }]
     (some (.symbol "x")) (.symbol "x") _ (.integer 42) rfl rfl⟩

/-! ## C5: define mutates only the current frame -/

lemma eval_ok_iff {fuel : Nat} {st : Store} {envId : Nat} {e : Expr}
    {st' : Store} {v : Expr} :
    eval fuel st envId e = .ok st' v ↔ evalC fuel st (.one envId e) = .val st' v := by
  unfold eval; cases hc : evalC fuel st (.one envId e) <;> simp

lemma eval_err_iff {fuel : Nat} {st : Store} {envId : Nat} {e : Expr}
    {st' : Store} {er : EvalErr} :
    eval fuel st envId e = .err st' er ↔ evalC fuel st (.one envId e) = .errOut st' er := by
  unfold eval; cases hc : evalC fuel st (.one envId e) <;> simp

lemma lookupVar_setVar_self (x : String) (v : Expr) :
    ∀ l, lookupVar (setVar l x v) x = some v := by
  intro l
  induction l with
  | nil => simp [setVar, lookupVar]
  | cons kv rest ih =>
      obtain ⟨k, w⟩ := kv
      by_cases h : k = x <;> simp [setVar, lookupVar, h, ih]

lemma lookupVar_setVar_ne (x : String) (v : Expr) (y : String) (hyx : y ≠ x) :
    ∀ l, lookupVar (setVar l x v) y = lookupVar l y := by
  intro l
  have hxy : ¬x = y := fun hh => hyx hh.symm
  induction l with
  | nil => simp [setVar, lookupVar, hxy]
  | cons kv rest ih =>
      obtain ⟨k, w⟩ := kv
      by_cases hkx : k = x
      · subst hkx
        simp [setVar, lookupVar, hxy]
      · simp [setVar, lookupVar, hkx, ih]

/-- C5: `(define name expr)` (variable form) evaluates `expr` in the
current environment and, when that succeeds, installs the binding with
`Env.Set` on the current frame and returns the defined symbol; frames other
than the current one are untouched, the current frame changes only by
`setVar` of that one key, and within a frame `setVar` leaves every other
key's binding unchanged while binding the key itself to the new value. -/
theorem define_binds_current_frame (fuel : Nat) (st : Store) (envId : Nat)
    (x : String) (e : Expr) (st' : Store) (v : Expr)
    (h : eval fuel st envId e = .ok st' v) :
    (eval (fuel + 1) st envId (.list [.symbol "define", .symbol x, e])
        = .ok (envSet st' envId x v) (.symbol x)) ∧
    (∀ j, j ≠ envId → (envSet st' envId x v).get? j = st'.get? j) ∧
    (∀ fr, st'.get? envId = some fr →
      (envSet st' envId x v).get? envId
        = some { fr with vars := setVar fr.vars x v }) ∧
    (∀ l (y : String), y ≠ x → lookupVar (setVar l x v) y = lookupVar l y) ∧
    (∀ l, lookupVar (setVar l x v) x = some v) := by
  have hC := eval_ok_iff.mp h
  refine ⟨?_, ?_, ?_, ?_, ?_⟩
  · simp [eval, evalC, hC]
  · intro j hj
    unfold envSet
    cases hg : st'.get? envId with
    | none => rfl
    | some f =>
        simp only [List.get?_eq_getElem?] at *
        exact List.getElem?_set_ne (fun hh => hj hh.symm)
  · intro fr hg
    unfold envSet
    rw [hg]
    simp only [List.get?_eq_getElem?] at *
    have hlt : envId < st'.length := by
      rcases List.getElem?_eq_some.mp hg with ⟨hh, _⟩
      exact hh
    rw [List.getElem?_set_eq_of_lt _ hlt]
  · intro l y hyx
    exact lookupVar_setVar_ne x v y hyx l
  · intro l
    exact lookupVar_setVar_self x v l

/-- Witness for `define_binds_current_frame`: hypothesis discharged on
`(define y 5)` in the global environment. -/
theorem define_binds_current_frame_witness :
    eval 1 globalStore 0 (.integer 5) = .ok globalStore (.integer 5) ∧
    eval 2 globalStore 0 (.list [.symbol "define", .symbol "y", .integer 5])
      = .ok (envSet globalStore 0 "y" (.integer 5)) (.symbol "y") :=
  ⟨rfl,
   (define_binds_current_frame 1 globalStore 0 "y" (.integer 5) globalStore
     (.integer 5) rfl).1⟩

/-! ## C6: multi-expression bodies -/

/-- C6 (code bug): `(define (f x) 1 x)` stores a closure whose body is the
plain list `(1 x)` — and invoking `(f 5)` then evaluates that list as a
function application, reporting "not a function: 1", instead of evaluating
the body expressions in order and returning the last one (Integer 5), which
is what both the spec and the evaluator's own comment over this code
describe. -/
theorem multi_body_define_misapplies :
    eval 20 globalStore 0
        (.list [.symbol "define", .list [.symbol "f", .symbol "x"],
                .integer 1, .symbol "x"])
      = .ok [{ vars := [("+", .builtinAddFn), ("*", .builtinMulFn),
                        ("f", .closure ["x"] (.list [.integer 1, .symbol "x"]) 0)],
               outer := none }]
          (.symbol "f") ∧
    (evalAll 20 globalStore 0
        [.list [.symbol "define", .list [.symbol "f", .symbol "x"],
                .integer 1, .symbol "x"],
         .list [.symbol "f", .integer 5]]).errOf
      = some (.notAFunction (.integer 1)) :=
  ⟨rfl, rfl⟩

/-! ## C3: quote desugaring -/

lemma parseList_after (f : Nat) :
    ∀ (ts : List PTok) (acc : List Expr) (X : Expr) (rest : List PTok),
    ParseExpr f ts = .ok (X, .rparen :: rest) →
    parseList (f + 1) ts acc = .ok (.list (acc ++ [X]), rest) := by
  induction f with
  | zero => intro ts acc X rest h; simp [ParseExpr, parseC] at h
  | succ g ih =>
      intro ts acc X rest h
      match ts with
      | [] => simp [ParseExpr, parseC] at h
      | .rparen :: rest' => simp [ParseExpr, parseC] at h
      | .comment s :: rest' =>
          have h' : ParseExpr g rest' = .ok (X, .rparen :: rest) := by
            simpa [ParseExpr, parseC] using h
          have := ih rest' acc X rest h'
          simpa [parseList, parseC] using this
      | .int s :: rest' =>
          rw [ParseExpr] at h
          simp only [parseC] at h
          simp [parseList, parseC, h]
      | .float s :: rest' =>
          rw [ParseExpr] at h
          simp only [parseC] at h
          simp [parseList, parseC, h]
      | .str s :: rest' =>
          rw [ParseExpr] at h
          simp only [parseC] at h
          simp [parseList, parseC, h]
      | .ident s :: rest' =>
          rw [ParseExpr] at h
          simp only [parseC] at h
          simp [parseList, parseC, h]
      | .lparen :: rest' =>
          rw [ParseExpr] at h
          simp only [parseC] at h
          simp [parseList, parseC, h]
      | .quote :: rest' =>
          rw [ParseExpr] at h
          simp only [parseC] at h
          simp [parseList, parseC, h]

/-- C3: whenever a token sequence parses as an expression `X`, prefixing a
Quote token yields exactly the two-element list `(quote X)` (`parseQuote`'s
expansion), and the explicitly written form `( quote … )` around the same
tokens parses to the very same tree — and end to end through the
scanner-based lexer, the source texts `'(a b c)` and `(quote (a b c))`
produce structurally identical parses. -/
theorem quote_desugar :
    (∀ (f : Nat) (ts rest' : List PTok) (X : Expr),
      ParseExpr f ts = .ok (X, rest') →
      ParseExpr (f + 1) (.quote :: ts) = .ok (.list [.symbol "quote", X], rest')) ∧
    (∀ (f : Nat) (ts rest : List PTok) (X : Expr),
      ParseExpr f ts = .ok (X, .rparen :: rest) →
      ParseExpr (f + 3) (.lparen :: .ident "quote" :: ts)
        = .ok (.list [.symbol "quote", X], rest)) ∧
    (slex.tokenize 100 "'(a b c)".data).map (ParseAll 50)
      = some (.ok [.list [.symbol "quote",
          .list [.symbol "a", .symbol "b", .symbol "c"]]]) ∧
    (slex.tokenize 100 "(quote (a b c))".data).map (ParseAll 50)
      = some (.ok [.list [.symbol "quote",
          .list [.symbol "a", .symbol "b", .symbol "c"]]]) := by
  refine ⟨?_, ?_, rfl, rfl⟩
  · intro f ts rest' X h
    rw [ParseExpr] at h
    rw [ParseExpr]
    simp [parseC, h]
  · intro f ts rest X h
    have hstep := parseList_after f ts [.symbol "quote"] X rest h
    calc ParseExpr (f + 3) (.lparen :: .ident "quote" :: ts)
        = parseC (f + 2) (.lst (.ident "quote" :: ts) []) := by
          simp [ParseExpr, parseC]
      _ = parseC (f + 1) (.lst ts [.symbol "quote"]) := by
          simp [parseC]
      _ = .ok (.list [.symbol "quote", X], rest) := by
          simpa [parseList] using hstep

/-- Witness for `quote_desugar`: hypotheses discharged on the token
sequence of the literal `1` inside a list context. -/
theorem quote_desugar_witness :
    ParseExpr 1 [.int "1", .rparen] = .ok (.integer 1, [.rparen]) ∧
    ParseExpr 2 (.quote :: [.int "1", .rparen])
      = .ok (.list [.symbol "quote", .integer 1], [.rparen]) ∧
    ParseExpr 4 [.lparen, .ident "quote", .int "1", .rparen]
      = .ok (.list [.symbol "quote", .integer 1], []) :=
  ⟨rfl,
   quote_desugar.1 1 [.int "1", .rparen] [.rparen] (.integer 1) rfl,
   quote_desugar.2.1 1 [.int "1", .rparen] [] (.integer 1) rfl⟩

/-! ## C7: numeric literal lexing -/

/-- C7 (counterexample): in the scanner-based lexer — the only lexer in the
source with distinct Integer/Float token kinds — the source `-3.14` does
not lex as a single Float-kind numeric literal: its first token is the
Identifier `-3`; and in the hand-rolled lexer, which does implement the
"`-` followed by a digit starts a numeric literal" rule, a literal with a
`.` and one without receive the same single kind `NUMBER`, so no
Float/Integer classification exists there either. -/
theorem numeric_literal_lexing_counterexample :
    slex.tokenize 10 "-3.14".data = some [.ident "-3", .float ".14"] ∧
    (hlex.NextToken 1 (hlex.New "3.14")).map (fun p => p.1.type) = some .NUMBER ∧
    (hlex.NextToken 1 (hlex.New "42")).map (fun p => p.1.type) = some .NUMBER :=
  ⟨rfl, rfl, rfl⟩

lemma digit_char_facts (c : Char) (h : hlex.isDigit c = true) :
    hlex.isWS c = false ∧ c ≠ '\'' ∧ c ≠ '(' ∧ c ≠ ')' ∧ c ≠ '.' ∧
    c ≠ '"' ∧ c ≠ ';' := by
  refine ⟨?_, ?_, ?_, ?_, ?_, ?_, ?_⟩
  · simp only [hlex.isWS, Bool.or_eq_false_iff, decide_eq_false_iff_not]
    refine ⟨⟨⟨?_, ?_⟩, ?_⟩, ?_⟩ <;> · rintro rfl; exact absurd h (by decide)
  all_goals rintro rfl; exact absurd h (by decide)

/-- C7 (amended): in the hand-rolled lexer (lexer/lexer.go), a digit — or a
`-` immediately followed by a digit — starts a numeric literal consumed by
`readNumber` (digits, optionally `.` and more digits) and emitted as one
token of the single numeric kind `NUMBER` (there is no Integer/Float
distinction), while a bare `-` not followed by a digit is read as a symbol
token; in the scanner-based lexer used by the parser, an unsigned literal
containing `.` is classified as a Float token and one without as an
Integer token, but `-` never starts a numeric literal there, so `-3.14`
lexes as Identifier `-3` followed by Float `.14`. -/
theorem numeric_literal_lexing_amended :
    (∀ (c : Char) (r : List Char), hlex.isDigit c = true →
      hlex.NextToken 1 ⟨c :: r, []⟩
        = some (⟨.NUMBER, String.mk (hlex.readNumber (c :: r)).1⟩,
                ⟨(hlex.readNumber (c :: r)).2, []⟩)) ∧
    (∀ (d : Char) (r : List Char), hlex.isDigit d = true →
      hlex.NextToken 1 ⟨'-' :: d :: r, []⟩
        = some (⟨.NUMBER, String.mk (hlex.readNumber ('-' :: d :: r)).1⟩,
                ⟨(hlex.readNumber ('-' :: d :: r)).2, []⟩)) ∧
    (∀ r : List Char, (match r with | d :: _ => hlex.isDigit d | [] => false) = false →
      hlex.NextToken 1 ⟨'-' :: r, []⟩
        = some (⟨.SYMBOL, (hlex.readSymbol ('-' :: r)).1⟩,
                ⟨(hlex.readSymbol ('-' :: r)).2, []⟩)) ∧
    hlex.NextToken 1 (hlex.New "-3.14") = some (⟨.NUMBER, "-3.14"⟩, ⟨[], []⟩) ∧
    hlex.NextToken 1 (hlex.New "-") = some (⟨.SYMBOL, "-"⟩, ⟨[], []⟩) ∧
    slex.tokenize 10 "3.14".data = some [.float "3.14"] ∧
    slex.tokenize 10 "42".data = some [.int "42"] ∧
    slex.tokenize 10 "-3.14".data = some [.ident "-3", .float ".14"] := by
  refine ⟨?_, ?_, ?_, rfl, rfl, rfl, rfl, rfl⟩
  · intro c r h
    obtain ⟨hws, hq, hlp, hrp, hdot, hstr, hsemi⟩ := digit_char_facts c h
    simp [hlex.NextToken, hlex.lexC, List.dropWhile_cons, hws, hq, hlp, hrp,
      hdot, hstr, hsemi, h]
  · intro d r h
    simp only [hlex.isDigit, Bool.and_eq_true, decide_eq_true_eq] at h
    simp [hlex.NextToken, hlex.lexC, List.dropWhile_cons, h, hlex.isWS,
      hlex.isDigit, hlex.isInitialSymbol, hlex.isLetter, hlex.isAllowedSymbolChar]
  · intro r h
    have hsym : ∀ l, String.mk ('-' :: l) ≠ "#t" ∧ String.mk ('-' :: l) ≠ "#f" := by
      intro l
      constructor <;> · intro he; have hd := congrArg String.data he; simp at hd
    have hrs : (hlex.readSymbol ('-' :: r)).1
        = String.mk ('-' :: r.takeWhile hlex.isSymbolChar) := by
      simp [hlex.readSymbol, List.takeWhile_cons, hlex.isSymbolChar, hlex.isLetter,
        hlex.isDigit, hlex.isAllowedSymbolChar]
    obtain ⟨ht, hf⟩ := hsym (r.takeWhile hlex.isSymbolChar)
    have hd : hlex.isDigit '-' = false := by decide
    have hw : hlex.isWS '-' = false := by decide
    have hi : hlex.isInitialSymbol '-' = true := by decide
    simp [hlex.NextToken, hlex.lexC, List.dropWhile_cons, h, hrs, ht, hf, hd, hw, hi]

/-- Witness for `numeric_literal_lexing_amended`: its hypotheses discharged
at the digit `7`, at `-` before `3`, and at `-` before a letter. -/
theorem numeric_literal_lexing_amended_witness :
    (hlex.isDigit '7' = true ∧
      hlex.NextToken 1 ⟨['7', 'x'], []⟩ = some (⟨.NUMBER, "7"⟩, ⟨['x'], []⟩)) ∧
    (hlex.isDigit '3' = true ∧
      hlex.NextToken 1 ⟨['-', '3'], []⟩ = some (⟨.NUMBER, "-3"⟩, ⟨[], []⟩)) ∧
    hlex.NextToken 1 ⟨['-', 'a'], []⟩ = some (⟨.SYMBOL, "-a"⟩, ⟨[], []⟩) :=
  ⟨⟨by decide, (numeric_literal_lexing_amended.1 '7' ['x'] (by decide)).trans rfl⟩,
   ⟨by decide, (numeric_literal_lexing_amended.2.1 '3' [] (by decide)).trans rfl⟩,
   (numeric_literal_lexing_amended.2.2.1 ['a'] (by decide)).trans rfl⟩

/-! ## C8: unterminated string literals -/

/-- C8 (code bug): on the input `"abc` — an opening double-quote never
matched before end of input — no lexical error is reported: the hand-rolled
lexer's `readString` silently returns a STRING token holding the text up to
end of input, and the scanner-based lexer likewise yields a String token
(carrying the raw unterminated text, since `strconv.Unquote` fails and the
code falls back to it), although both the spec (§7) and the repository
README promise an unterminated-string / unexpected-end-of-input error. -/
theorem unterminated_string_token :
    hlex.NextToken 1 (hlex.New "\"abc") = some (⟨.STRING, "abc"⟩, ⟨[], []⟩) ∧
    slex.tokenize 10 "\"abc".data = some [.str "\"abc"] :=
  ⟨rfl, rfl⟩

/-! ## C9: no rollback of the environment on error -/

/-- The store a result carries (`none` for fuel exhaustion). -/
def EOut.store : EOut → Option Store
  | .val st _ => some st
  | .vals st _ => some st
  | .errOut st _ => some st
  | .timeout => none

/-- `s` has a binding in frame `id` of `st`. -/
def isBound (st : Store) (id : Nat) (s : String) : Bool :=
  match st.get? id with
  | some fr => (lookupVar fr.vars s).isSome
  | none => false

/-- Every binding present in `st` is still present in `st'` (possibly with
a different value). -/
def presIn (st st' : Store) : Prop :=
  ∀ id s, isBound st id s = true → isBound st' id s = true

lemma presIn_refl (st : Store) : presIn st st := fun _ _ h => h

lemma presIn_of_eq {st st' : Store} (h : st = st') : presIn st st' := h ▸ presIn_refl st

lemma presIn_trans {a b c : Store} (h1 : presIn a b) (h2 : presIn b c) : presIn a c :=
  fun id s h => h2 id s (h1 id s h)

lemma isSome_lookupVar_setVar (l : List (String × Expr)) (x : String) (v : Expr)
    (y : String) (h : (lookupVar l y).isSome = true) :
    (lookupVar (setVar l x v) y).isSome = true := by
  by_cases hyx : y = x
  · subst hyx; rw [lookupVar_setVar_self]; rfl
  · rw [lookupVar_setVar_ne x v y hyx]; exact h

lemma presIn_envSet (st : Store) (id : Nat) (x : String) (v : Expr) :
    presIn st (envSet st id x v) := by
  intro j s h
  unfold envSet
  cases hg : st.get? id with
  | none => exact h
  | some f =>
      by_cases hj : j = id
      · subst hj
        unfold isBound at h ⊢
        rw [hg] at h
        have hlt : j < st.length := by
          simp only [List.get?_eq_getElem?] at hg
          rcases List.getElem?_eq_some.mp hg with ⟨hh, _⟩
          exact hh
        simp only [List.get?_eq_getElem?]
        rw [List.getElem?_set_eq_of_lt _ hlt]
        exact isSome_lookupVar_setVar f.vars x v s h
      · unfold isBound at h ⊢
        simp only [List.get?_eq_getElem?] at h ⊢
        rw [List.getElem?_set_ne (fun hh => hj hh.symm)]
        simpa using h

lemma presIn_append (st : Store) (l2 : Store) : presIn st (st ++ l2) := by
  intro j s h
  unfold isBound at h ⊢
  simp only [List.get?_eq_getElem?] at h ⊢
  cases hg : st[j]? with
  | none => rw [hg] at h; simp at h
  | some fr =>
      have hlt : j < st.length := by
        rcases List.getElem?_eq_some.mp hg with ⟨hh, _⟩
        exact hh
      rw [List.getElem?_append, if_pos hlt, hg]
      rw [hg] at h
      exact h

lemma presIn_bindParams (id : Nat) :
    ∀ (ps : List String) (as_ : List Expr) (st : Store),
    presIn st (bindParams st id ps as_) := by
  intro ps
  induction ps with
  | nil => intro as_ st; cases as_ <;> exact presIn_refl st
  | cons p ps ih =>
      intro as_ st
      cases as_ with
      | nil => exact presIn_refl st
      | cons a rest =>
          exact presIn_trans (presIn_envSet st id p a) (ih rest (envSet st id p a))

set_option maxHeartbeats 2000000 in
lemma evalC_pres : ∀ (fuel : Nat) (st : Store) (call : ECall) (st' : Store),
    (evalC fuel st call).store = some st' → presIn st st' := by
  intro fuel
  induction fuel with
  | zero => intro st call st' h; simp [evalC, EOut.store] at h
  | succ f ih =>
      have ihv : ∀ (st : Store) (c : ECall) (st1 : Store) (v : Expr),
          evalC f st c = .val st1 v → presIn st st1 :=
        fun st c st1 v he => ih st c st1 (by rw [he]; rfl)
      have ihvs : ∀ (st : Store) (c : ECall) (st1 : Store) (vs : List Expr),
          evalC f st c = .vals st1 vs → presIn st st1 :=
        fun st c st1 vs he => ih st c st1 (by rw [he]; rfl)
      have ihe : ∀ (st : Store) (c : ECall) (st1 : Store) (er : EvalErr),
          evalC f st c = .errOut st1 er → presIn st st1 :=
        fun st c st1 er he => ih st c st1 (by rw [he]; rfl)
      have step_val : ∀ (stA : Store) (c : ECall) (stB : Store) (v : Expr) (stC : Store),
          evalC f stA c = .val stB v → presIn stB stC → presIn stA stC :=
        fun stA c stB v stC he hp => presIn_trans (ihv stA c stB v he) hp
      have step_vals : ∀ (stA : Store) (c : ECall) (stB : Store) (vs : List Expr)
          (stC : Store),
          evalC f stA c = .vals stB vs → presIn stB stC → presIn stA stC :=
        fun stA c stB vs stC he hp => presIn_trans (ihvs stA c stB vs he) hp
      have step_pre : ∀ (stA stB : Store) (c : ECall) (stC : Store),
          presIn stA stB → (evalC f stB c).store = some stC → presIn stA stC :=
        fun stA stB c stC hp hh => presIn_trans hp (ih stB c stC hh)
      have pres_alloc : ∀ (stA : Store) (fr : Frame) (id : Nat) (ps : List String)
          (as_ : List Expr), presIn stA (bindParams (stA ++ [fr]) id ps as_) :=
        fun stA fr id ps as_ =>
          presIn_trans (presIn_append stA [fr]) (presIn_bindParams id ps as_ (stA ++ [fr]))
      intro st call st' h
      match call with
      | .one envId e =>
          simp only [evalC, newEnv] at h
          repeat' split at h
          all_goals try (exfalso; simp [EOut.store] at h; done)
          all_goals try (simp only [EOut.store, Option.some.injEq] at h; subst h)
          all_goals try exact presIn_refl _
          all_goals try exact presIn_envSet _ _ _ _
          -- define (variable form), success: Eval of the bound expression
          -- then Env.Set on the current frame
          · rename_i x1 st1 v1 heq1
            exact step_val _ _ _ _ _ heq1 (presIn_envSet _ _ _ _)
          -- define (variable form), inner evaluation fails
          · rename_i x1 st1 e1 heq1
            exact ihe _ _ _ _ heq1
          -- application: head and arguments evaluated, then the apply step
          · rename_i x1 st1 v1 heq1 x2 st2 args2 heq2
            exact step_val _ _ _ _ _ heq1 (step_vals _ _ _ _ _ heq2 (ih _ _ _ h))
          -- application: argument evaluation fails
          · rename_i x1 st1 v1 heq1 x2 st2 e2 heq2
            exact step_val _ _ _ _ _ heq1 (ihe _ _ _ _ heq2)
          -- application: head evaluation fails
          · rename_i x1 st1 e1 heq1
            exact ihe _ _ _ _ heq1
      | .args envId es =>
          match es with
          | [] =>
              simp only [evalC, EOut.store, Option.some.injEq] at h
              exact presIn_of_eq h
          | a :: rest =>
              simp only [evalC] at h
              repeat' split at h
              all_goals try (exfalso; simp [EOut.store] at h; done)
              all_goals try (simp only [EOut.store, Option.some.injEq] at h; subst h)
              all_goals try exact presIn_refl _
              -- head argument evaluated, then the rest of the list
              · rename_i x1 st1 v1 heq1 x2 st2 vs2 heq2
                exact step_val _ _ _ _ _ heq1 (ihvs _ _ _ _ heq2)
              · rename_i x1 st1 v1 heq1 x2 st2 e2 heq2
                exact step_val _ _ _ _ _ heq1 (ihe _ _ _ _ heq2)
              · rename_i x1 st1 e1 heq1
                exact ihe _ _ _ _ heq1
      | .apply callerEnv op args =>
          simp only [evalC, newEnv] at h
          repeat' split at h
          all_goals try (exfalso; simp [EOut.store] at h; done)
          all_goals try (simp only [EOut.store, Option.some.injEq] at h; subst h)
          all_goals try exact presIn_refl _
          -- closure call: fresh frame, parameters bound, body evaluated
          · exact step_pre _ _ _ _ (pres_alloc _ _ _ _ _) h

/-- C9: when `EvalAll` returns an error, the environment is not rolled
back: the overall result is the first error together with the store as
mutated up to that point, and every binding present after the successfully
evaluated prefix (in particular every binding an earlier `define`
installed) is still present in the store the error carries. -/
theorem error_keeps_bindings (fuel : Nat) (st : Store) (envId : Nat)
    (es1 : List Expr) (st1 : Store) (r1 : Option Expr) (e : Expr)
    (es2 : List Expr) (st2 : Store) (er : EvalErr)
    (h1 : evalAllAux fuel envId st none es1 = .ok st1 r1)
    (h2 : eval fuel st1 envId e = .err st2 er) :
    evalAll fuel st envId (es1 ++ e :: es2) = .err st2 er ∧
    (∀ id s, isBound st1 id s = true → isBound st2 id s = true) := by
  constructor
  · unfold evalAll
    rw [evalAllAux_append, h1]
    simp [evalAllAux, h2]
  · have hC := eval_err_iff.mp h2
    exact evalC_pres fuel st1 (.one envId e) st2 (by rw [hC]; rfl)

/-- Witness for `error_keeps_bindings`: the program `(define x 42) y` in
the global environment — `y` is undefined, and the error store still binds
`x`. -/
theorem error_keeps_bindings_witness :
    evalAllAux 10 0 globalStore none
        [.list [.symbol "define", .symbol "x", .integer 42]]
      = .ok [{ vars := [("+", .builtinAddFn), ("*", .builtinMulFn), ("x", .integer 42)],
               outer := none }] (some (.symbol "x")) ∧
    eval 10 [{ vars := [("+", .builtinAddFn), ("*", .builtinMulFn), ("x", .integer 42)],
               outer := none }] 0 (.symbol "y")
      = .err [{ vars := [("+", .builtinAddFn), ("*", .builtinMulFn), ("x", .integer 42)],
                outer := none }] (.undefinedSymbol "y") ∧
    evalAll 10 globalStore 0
        ([.list [.symbol "define", .symbol "x", .integer 42]] ++ .symbol "y" :: [])
      = .err [{ vars := [("+", .builtinAddFn), ("*", .builtinMulFn), ("x", .integer 42)],
                outer := none }] (.undefinedSymbol "y") ∧
    isBound [{ vars := [("+", .builtinAddFn), ("*", .builtinMulFn), ("x", .integer 42)],
               outer := none }] 0 "x" = true :=
  ⟨rfl, rfl,
   (error_keeps_bindings 10 globalStore 0
     [.list [.symbol "define", .symbol "x", .integer 42]]
     [{ vars := [("+", .builtinAddFn), ("*", .builtinMulFn), ("x", .integer 42)],
        outer := none }]
     (some (.symbol "x")) (.symbol "y") []
     [{ vars := [("+", .builtinAddFn), ("*", .builtinMulFn), ("x", .integer 42)],
        outer := none }]
     (.undefinedSymbol "y") rfl rfl).1,
   (error_keeps_bindings 10 globalStore 0
     [.list [.symbol "define", .symbol "x", .integer 42]]
     [{ vars := [("+", .builtinAddFn), ("*", .builtinMulFn), ("x", .integer 42)],
        outer := none }]
     (some (.symbol "x")) (.symbol "y") []
     [{ vars := [("+", .builtinAddFn), ("*", .builtinMulFn), ("x", .integer 42)],
        outer := none }]
     (.undefinedSymbol "y") rfl rfl).2 0 "x" rfl⟩
